import Mathlib

/-!
Shallow embedding of the appointment-change detection and notification
composition core of the hannover-buergeramt-bot repository.

Modelling conventions:
* An `Appointment` mirrors `buergeramt_termine/models.py::Appointment`:
  value identity is `(date_time, location_id)`.  The datetime is encoded
  as minutes since an epoch day (`dateTime`), so the calendar date is
  `dateTime / 1440` and the time of day is `dateTime % 1440`; the source
  works with minute precision.
* The location display name used for ordering tie-breaks and rendering
  (`appointment.location.name`) is supplied by an environment function
  `names : Nat → String` mapping a location id to its display name.
* Python code that can raise (list indexing on an empty list) is embedded
  with `Option`: `none` models the raised exception.
* Python `list.sort()` / `sorted(...)` (Timsort, driven by
  `Appointment.__gt__` through the reflected `<`) is embedded with
  `List.insertionSort`; the results proved below do not depend on which
  stable sorting algorithm realises the comparator.
-/

structure Appointment where
  dateTime : Nat
  locationId : Nat
deriving DecidableEq, Repr

/-- `a.date_time.date()` as a day number: minutes since epoch divided by
the 1440 minutes of one day. -/
def aDate (a : Appointment) : Nat := a.dateTime / 1440

/-- `Appointment.__gt__` from `models.py`: compare by `date_time`, ties
broken by the serving location's display name. -/
def appGT (names : Nat → String) (x y : Appointment) : Bool :=
  if x.dateTime == y.dateTime then decide (names y.locationId < names x.locationId)
  else decide (y.dateTime < x.dateTime)

/-- Ascending sort of appointments, as performed by `list.sort()` via the
reflected `__gt__` operator: `a` may precede `b` iff `¬ (a > b)`. -/
def sortAsc (names : Nat → String) (l : List Appointment) : List Appointment :=
  List.insertionSort (fun a b => appGT names a b = false) l

/-- Descending sort of appointments (`sorted(..., reverse=True)`). -/
def sortDesc (names : Nat → String) (l : List Appointment) : List Appointment :=
  List.insertionSort (fun a b => appGT names b a = false) l

/-- Python `sorted({...})` over naturals: deduplicate, then sort
ascending; the result is canonical regardless of input order. -/
def canonSortNat (l : List Nat) : List Nat :=
  List.insertionSort (fun a b : Nat => a ≤ b) l.dedup

/-- Zero-padded two-digit rendering, as in `strftime` fields. -/
def pad2 (n : Nat) : String :=
  if n < 10 then "0" ++ Nat.repr n else Nat.repr n

/-- `date_time.strftime("%H:%M")` for a minutes-since-epoch value. -/
def timeStr (m : Nat) : String :=
  pad2 (m % 1440 / 60) ++ ":" ++ pad2 (m % 60)

/-- Gregorian calendar components `(year, month, day)` of a day number
(days since 1970-01-01), by the standard civil-from-days algorithm. -/
def civilFromDays (z : Nat) : Nat × Nat × Nat :=
  let zShift := z + 719468
  let era := zShift / 146097
  let doe := zShift % 146097
  let yoe := (doe - doe / 1460 + doe / 36524 - doe / 146096) / 365
  let y := yoe + era * 400
  let doy := doe - (365 * yoe + yoe / 4 - yoe / 100)
  let mp := (5 * doy + 2) / 153
  let d := doy - (153 * mp + 2) / 5 + 1
  let m := if mp < 10 then mp + 3 else mp - 9
  (if m ≤ 2 then y + 1 else y, m, d)

/-- `date.strftime("%d.%m.%Y")` for a day number. -/
def dateStr (day : Nat) : String :=
  let c := civilFromDays day
  pad2 c.2.2 ++ "." ++ pad2 c.2.1 ++ "." ++ Nat.repr c.1

/-- `", ".join(...)`. -/
def joinComma (l : List String) : String := String.intercalate ", " l

/-- `notification.py::_format_apps_date`: renders the times of a list of
appointments assumed to share one date and location.  `none` models the
`IndexError` raised by `apps_loc_date[0]` on an empty list. -/
def formatAppsDate (names : Nat → String) (appsLocDate : List Appointment)
    (splitAt : Nat) : Option String :=
  match sortAsc names appsLocDate with
  | [] => none
  | a :: rest =>
    let s := a :: rest
    let reply := "• " ++ dateStr (aDate a) ++ ": "
    if s.length ≤ splitAt then
      some (reply ++ "<i>" ++ joinComma (s.map (fun x => timeStr x.dateTime)) ++ "</i>\n")
    else
      let shortenAfter := splitAt - 2
      some (reply ++ "<i>" ++
        joinComma ((s.take shortenAfter).map (fun x => timeStr x.dateTime)) ++
        ", ... (+" ++ Nat.repr (s.drop shortenAfter).length ++ ")</i>\n")

/-- The per-date loop of `notification.py::_format_apps`: renders each
date group in order, appending to the accumulated reply. -/
def formatAppsLoop (names : Nat → String) (appsLoc : List Appointment) :
    List Nat → String → Option String
  | [], acc => some acc
  | d :: ds, acc =>
    match formatAppsDate names (appsLoc.filter (fun a => aDate a == d)) 5 with
    | none => none
    | some s => formatAppsLoop names appsLoc ds (acc ++ s)

/-- `notification.py::_format_apps`: renders a list of appointments
assumed to share one location.  `none` models the `IndexError` raised by
`apps_loc[0]` on an empty list. -/
def formatApps (names : Nat → String) (appsLoc : List Appointment)
    (splitAt : Nat) : Option String :=
  match appsLoc with
  | [] => none
  | a0 :: _ =>
    let appsLocDates := canonSortNat (appsLoc.map aDate)
    let locFirst := appsLocDates.take splitAt
    let locRest := appsLocDates.drop splitAt
    match formatAppsLoop names appsLoc locFirst
        ("🏢 <b>" ++ names a0.locationId ++ ":</b>\n") with
    | none => none
    | some r =>
      if locRest.isEmpty then some r
      else
        let appRest := appsLoc.filter (fun a => locRest.contains (aDate a))
        if appRest.length == 1 then some (r ++ "• <i>Ein weiterer Termin</i>\n")
        else some (r ++ "• <i>" ++ Nat.repr appRest.length ++ " weitere Termine</i>\n")

/-- `repositories.py::AppointmentRepository.appointments_earlier_than`:
all stored appointments with calendar date strictly before `deadline`. -/
def appointmentsEarlierThan (deadline : Nat) (apps : List Appointment) :
    List Appointment :=
  apps.filter (fun a => decide (aDate a < deadline))

/-- The snapshot diff of `notification.py::notification_apps_diff`
(lines 126-127): `added` are the new appointments absent from the stored
ones, `removed` the stored ones absent from the new ones, by the value
equality of `Appointment.__eq__`. -/
def diffApps (appsStoredEarly appsCurEarly : List Appointment) :
    List Appointment × List Appointment :=
  (appsCurEarly.filter (fun a => decide (a ∉ appsStoredEarly)),
   appsStoredEarly.filter (fun a => decide (a ∉ appsCurEarly)))

/-- The per-location loop shared by `notification_stored_apps` and
`notification_earliest`: group the appointments by location id and render
each group, appending to the accumulated reply. -/
def renderGroupsLoop (names : Nat → String) (apps : List Appointment) :
    List Nat → String → Option String
  | [], acc => some acc
  | locId :: ids, acc =>
    match formatApps names (apps.filter (fun a => a.locationId == locId)) 5 with
    | none => none
    | some s => renderGroupsLoop names apps ids (acc ++ s)

/-- The grouped rendering core of spec section 4.4(c): visit the distinct
location ids of the input in ascending order and render each non-empty
per-location group. -/
def renderLocGroups (names : Nat → String) (apps : List Appointment) :
    Option String :=
  renderGroupsLoop names apps (canonSortNat (apps.map (fun a => a.locationId))) ""

/-- `notification.py::notification_stored_apps`: the stored-snapshot
composition mode.  The repository access `appointments_earlier_than` is
made explicit by passing the stored snapshot `stored`. -/
def notificationStoredApps (names : Nat → String) (deadline : Nat)
    (stored : List Appointment) : Option String :=
  let earlyApps := appointmentsEarlierThan deadline stored
  if earlyApps.isEmpty then
    some "Momentan gibt es leider keine Termine vor deiner Deadline."
  else
    renderGroupsLoop names earlyApps
      (canonSortNat (earlyApps.map (fun a => a.locationId)))
      "<b><u>Termine vor deiner Deadline:</u></b>\n"

/-- The per-location loop of `notification_apps_diff`: builds the "new"
and "gone" replies, skipping empty per-location groups. -/
def diffGroupsLoop (names : Nat → String) (deadline : Nat)
    (appNew appGone : List Appointment) :
    List Nat → String → String → Option (String × String)
  | [], accNew, accGone => some (accNew, accGone)
  | locId :: ids, accNew, accGone =>
    let appNewEarlyLoc :=
      appNew.filter (fun a => a.locationId == locId && decide (aDate a < deadline))
    let appGoneEarlyLoc :=
      appGone.filter (fun a => a.locationId == locId && decide (aDate a < deadline))
    match (if appNewEarlyLoc.isEmpty then some accNew
           else (formatApps names appNewEarlyLoc 5).map (fun s => accNew ++ s)) with
    | none => none
    | some accNewNext =>
      match (if appGoneEarlyLoc.isEmpty then some accGone
             else (formatApps names appGoneEarlyLoc 5).map (fun s => accGone ++ s)) with
      | none => none
      | some accGoneNext =>
        diffGroupsLoop names deadline appNew appGone ids accNewNext accGoneNext

/-- Body of `notification.py::notification_apps_diff` after the two
deadline filters have been computed. -/
def notificationAppsDiffAux (names : Nat → String) (deadline : Nat)
    (appsStoredEarly appsCurEarly : List Appointment) : Option String :=
  let p := diffApps appsStoredEarly appsCurEarly
  let appNew := p.1
  let appGone := p.2
  let earlyLocIds := canonSortNat
    (((appNew ++ appGone).filter (fun a => decide (aDate a < deadline))).map
      (fun a => a.locationId))
  if earlyLocIds.isEmpty then some ""
  else
    match diffGroupsLoop names deadline appNew appGone earlyLocIds "" "" with
    | none => none
    | some r =>
      some ((if r.1 == "" then r.1 else "<b><u>Neue Termine:</u></b>\n" ++ r.1) ++
            (if r.2 == "" then r.2 else "<b><u>Diese Termine sind weg:</u></b>\n" ++ r.2))

/-- `notification.py::notification_apps_diff`: diff-mode composition.
The stored snapshot read through the repository is the parameter
`stored`; `appsCur` is the freshly downloaded snapshot. -/
def notificationAppsDiff (names : Nat → String) (deadline : Nat)
    (stored appsCur : List Appointment) : Option String :=
  notificationAppsDiffAux names deadline (appointmentsEarlierThan deadline stored)
    (appsCur.filter (fun a => decide (aDate a < deadline)))

/-- Body of `bot.py::notification_apps_diff`, the copy of the diff-mode
composer that `check_appointments_and_notify` calls.  It is identical to
`notification.py`'s version except for the literal header of the
"gone" block ("Diese Temine sind weg"). -/
def botNotificationAppsDiffAux (names : Nat → String) (deadline : Nat)
    (appsStoredEarly appsCurEarly : List Appointment) : Option String :=
  let p := diffApps appsStoredEarly appsCurEarly
  let appNew := p.1
  let appGone := p.2
  let earlyLocIds := canonSortNat
    (((appNew ++ appGone).filter (fun a => decide (aDate a < deadline))).map
      (fun a => a.locationId))
  if earlyLocIds.isEmpty then some ""
  else
    match diffGroupsLoop names deadline appNew appGone earlyLocIds "" "" with
    | none => none
    | some r =>
      some ((if r.1 == "" then r.1 else "<b><u>Neue Termine:</u></b>\n" ++ r.1) ++
            (if r.2 == "" then r.2 else "<b><u>Diese Temine sind weg:</u></b>\n" ++ r.2))

/-- `bot.py::notification_apps_diff` with its repository access made
explicit. -/
def botNotificationAppsDiff (names : Nat → String) (deadline : Nat)
    (stored appsCur : List Appointment) : Option String :=
  botNotificationAppsDiffAux names deadline (appointmentsEarlierThan deadline stored)
    (appsCur.filter (fun a => decide (aDate a < deadline)))

/-- `models.py::User`: a Telegram chat id together with a deadline day
number. -/
structure User where
  chatId : Nat
  deadline : Nat
deriving DecidableEq, Repr

/-- The validating deadline setter of `models.py::User.deadline`:
rejects (raises `ValueError`) when the new deadline lies strictly before
today. -/
def setDeadline (today : Nat) (u : User) (d : Nat) : Except String User :=
  if d < today then Except.error "The deadline must not be in the past"
  else Except.ok { u with deadline := d }

/-- The user state after an attempted deadline update: on rejection the
exception propagates and the stored user is left unchanged. -/
def setDeadlineState (today : Nat) (u : User) (d : Nat) : User :=
  match setDeadline today u d with
  | Except.ok uNext => uNext
  | Except.error _ => u

/-- The per-user loop of `bot.py::check_appointments_and_notify`:
collects the `(chat_id, reply)` pairs that would be sent, skipping users
whose composed reply is empty. -/
def runCycleLoop (names : Nat → String) (appsOld appsCur : List Appointment) :
    List User → List (Nat × String) → Option (List (Nat × String))
  | [], acc => some acc
  | u :: us, acc =>
    match botNotificationAppsDiff names u.deadline appsOld appsCur with
    | none => none
    | some reply =>
      if reply == "" then runCycleLoop names appsOld appsCur us acc
      else runCycleLoop names appsOld appsCur us (acc ++ [(u.chatId, reply)])

/-- `bot.py::check_appointments_and_notify` as a function of the stored
snapshot, the downloaded snapshot and the subscriber list; the result is
the mapping of messages that would be sent.  The guard
`apps_cur == apps_old` is Python list equality (element-wise
`Appointment.__eq__`). -/
def runCycle (names : Nat → String) (appsOld appsCur : List Appointment)
    (users : List User) : Option (List (Nat × String)) :=
  if users.isEmpty then some []
  else if appsCur == appsOld then some []
  else runCycleLoop names appsOld appsCur users []

/-- `timedelta.days` of `later.date_time - earlier.date_time`: the whole
number of days of the difference, rounded toward minus infinity. -/
def dayGap (later earlier : Appointment) : Int :=
  ((later.dateTime : Int) - (earlier.dateTime : Int)).fdiv 1440

/-- The gap-hunting loop of
`repositories.py::AppointmentRepository.get_date_considered_early`:
walk consecutive pairs of the descending-sorted appointments and stop at
the first pair more than 6 days apart. -/
def earlyWalk : List (Appointment × Appointment) → Nat → Nat
  | [], d => d
  | (later, earlier) :: rest, d =>
    if dayGap later earlier > 6 then aDate later else earlyWalk rest d

/-- `repositories.py::AppointmentRepository.get_date_considered_early`:
`none` models the `IndexError` raised by `apps_sorted_rev[-1]` on an
empty snapshot. -/
def getDateConsideredEarly (names : Nat → String) (apps : List Appointment) :
    Option Nat :=
  let sortedRev := sortDesc names apps
  match sortedRev.getLast? with
  | none => none
  | some last => some (earlyWalk (sortedRev.zip sortedRev.tail) (aDate last))

/-- The times of a date group as the renderer sees them: the `date_time`
values in the sorted order of `_format_apps_date`. -/
def sortedTimes (names : Nat → String) (l : List Appointment) : List Nat :=
  (sortAsc names l).map (fun a => a.dateTime)

/-! ### Concrete data used by witnesses and counterexamples -/

/-- A location-name environment for concrete evaluations. -/
def namesW : Nat → String := fun i => if i == 1 then "Aegi" else "Linden"

/-- Six appointments at one location on day 19723 (2024-01-01), with six
distinct times given in shuffled order. -/
def w6 : List Appointment :=
  [⟨19723 * 1440 + 555, 1⟩, ⟨19723 * 1440 + 545, 1⟩, ⟨19723 * 1440 + 565, 1⟩,
   ⟨19723 * 1440 + 540, 1⟩, ⟨19723 * 1440 + 560, 1⟩, ⟨19723 * 1440 + 550, 1⟩]

/-- The three earliest of the `w6` appointments. -/
def w3 : List Appointment :=
  [⟨19723 * 1440 + 540, 1⟩, ⟨19723 * 1440 + 545, 1⟩, ⟨19723 * 1440 + 550, 1⟩]

/-- Two snapshots that are equal as sets but listed in different orders. -/
def wPairOld : List Appointment :=
  [⟨19723 * 1440 + 540, 1⟩, ⟨19723 * 1440 + 600, 2⟩]

/-- See `wPairOld`. -/
def wPairCur : List Appointment :=
  [⟨19723 * 1440 + 600, 2⟩, ⟨19723 * 1440 + 540, 1⟩]

/-- A concrete subscriber with deadline day 19724. -/
def uW : User := ⟨42, 19724⟩

/-- Day 107 at 08:00: date gap to `cxEarlier` is 7 calendar days, but the
datetime difference is 6 days 22 hours. -/
def cxLater : Appointment := ⟨107 * 1440 + 480, 1⟩

/-- Day 100 at 10:00. -/
def cxEarlier : Appointment := ⟨100 * 1440 + 600, 1⟩

/-- A snapshot whose two distinct dates are 7 calendar days apart. -/
def cxApps : List Appointment := [cxLater, cxEarlier]

/-- The notification text produced for deadline 19724 when `w3` is stored
and `w6` is downloaded. -/
def sW : String :=
  "<b><u>Neue Termine:</u></b>\n🏢 <b>Aegi:</b>\n• 01.01.2024: <i>09:15, 09:20, 09:25</i>\n"

/-! ### String helpers -/

theorem str_append_ne_empty_left {s : String} (t : String) (h : s ≠ "") :
    s ++ t ≠ "" := by
  intro he
  apply h
  have hd := congrArg String.data he
  rw [String.data_append] at hd
  exact String.ext (List.append_eq_nil.mp hd).1

theorem str_append_ne_empty_right (s : String) {t : String} (h : t ≠ "") :
    s ++ t ≠ "" := by
  intro he
  apply h
  have hd := congrArg String.data he
  rw [String.data_append] at hd
  exact String.ext (List.append_eq_nil.mp hd).2

/-! ### The appointment ordering -/

theorem appGT_eq_false_iff {names : Nat → String} {a b : Appointment} :
    appGT names a b = false ↔
      (a.dateTime < b.dateTime ∨
        (a.dateTime = b.dateTime ∧ names a.locationId ≤ names b.locationId)) := by
  unfold appGT
  by_cases h : a.dateTime = b.dateTime
  · simp [h, not_lt]
  · simp only [beq_iff_eq, h, if_false, decide_eq_false_iff_not, not_lt]
    constructor
    · intro hle
      exact Or.inl (lt_of_le_of_ne hle h)
    · rintro (hlt | ⟨heq, _⟩)
      · exact le_of_lt hlt
      · exact heq.elim

theorem appGT_false_dateTime_le {names : Nat → String} {a b : Appointment}
    (h : appGT names a b = false) : a.dateTime ≤ b.dateTime := by
  rcases appGT_eq_false_iff.mp h with hlt | ⟨heq, _⟩
  · exact le_of_lt hlt
  · exact le_of_eq heq

theorem appLE_total (names : Nat → String) (a b : Appointment) :
    appGT names a b = false ∨ appGT names b a = false := by
  rcases lt_trichotomy a.dateTime b.dateTime with h | h | h
  · exact Or.inl (appGT_eq_false_iff.mpr (Or.inl h))
  · rcases le_total (names a.locationId) (names b.locationId) with hs | hs
    · exact Or.inl (appGT_eq_false_iff.mpr (Or.inr ⟨h, hs⟩))
    · exact Or.inr (appGT_eq_false_iff.mpr (Or.inr ⟨h.symm, hs⟩))
  · exact Or.inr (appGT_eq_false_iff.mpr (Or.inl h))

theorem appLE_trans (names : Nat → String) {a b c : Appointment}
    (hab : appGT names a b = false) (hbc : appGT names b c = false) :
    appGT names a c = false := by
  apply appGT_eq_false_iff.mpr
  rcases appGT_eq_false_iff.mp hab with h1 | ⟨h1, hs1⟩ <;>
    rcases appGT_eq_false_iff.mp hbc with h2 | ⟨h2, hs2⟩
  · exact Or.inl (lt_trans h1 h2)
  · exact Or.inl (h2 ▸ h1)
  · exact Or.inl (h1 ▸ h2)
  · exact Or.inr ⟨h1.trans h2, le_trans hs1 hs2⟩

instance ascIsTotal (names : Nat → String) :
    IsTotal Appointment (fun a b => appGT names a b = false) :=
  ⟨appLE_total names⟩

instance ascIsTrans (names : Nat → String) :
    IsTrans Appointment (fun a b => appGT names a b = false) :=
  ⟨fun _ _ _ => appLE_trans names⟩

instance descIsTotal (names : Nat → String) :
    IsTotal Appointment (fun a b => appGT names b a = false) :=
  ⟨fun a b => appLE_total names b a⟩

instance descIsTrans (names : Nat → String) :
    IsTrans Appointment (fun a b => appGT names b a = false) :=
  ⟨fun _ _ _ hab hbc => appLE_trans names hbc hab⟩

/-! ### Sorting helpers -/

theorem sortAsc_perm (names : Nat → String) (l : List Appointment) :
    (sortAsc names l).Perm l :=
  List.perm_insertionSort _ l

theorem sortAsc_sorted (names : Nat → String) (l : List Appointment) :
    List.Sorted (fun a b => appGT names a b = false) (sortAsc names l) :=
  List.sorted_insertionSort _ l

theorem sortDesc_perm (names : Nat → String) (l : List Appointment) :
    (sortDesc names l).Perm l :=
  List.perm_insertionSort _ l

theorem sortDesc_sorted (names : Nat → String) (l : List Appointment) :
    List.Sorted (fun a b => appGT names b a = false) (sortDesc names l) :=
  List.sorted_insertionSort _ l

theorem sortedTimes_sorted (names : Nat → String) (l : List Appointment) :
    List.Sorted (fun m n : Nat => m ≤ n) (sortedTimes names l) :=
  List.Pairwise.map _ (fun _ _ h => appGT_false_dateTime_le h) (sortAsc_sorted names l)

theorem sortedTimes_eq_of_perm (names : Nat → String) {l₁ l₂ : List Appointment}
    (h : l₁.Perm l₂) : sortedTimes names l₁ = sortedTimes names l₂ :=
  List.eq_of_perm_of_sorted
    (((sortAsc_perm names l₁).trans (h.trans (sortAsc_perm names l₂).symm)).map _)
    (sortedTimes_sorted names l₁) (sortedTimes_sorted names l₂)

theorem canonSortNat_eq_of_perm {l₁ l₂ : List Nat} (h : l₁.Perm l₂) :
    canonSortNat l₁ = canonSortNat l₂ :=
  List.eq_of_perm_of_sorted
    ((List.perm_insertionSort _ _).trans (h.dedup.trans (List.perm_insertionSort _ _).symm))
    (List.sorted_insertionSort _ _) (List.sorted_insertionSort _ _)

theorem mem_canonSortNat {a : Nat} {l : List Nat} : a ∈ canonSortNat l ↔ a ∈ l := by
  unfold canonSortNat
  rw [List.mem_insertionSort, List.mem_dedup]

theorem canonSortNat_ne_nil {l : List Nat} (h : l ≠ []) : canonSortNat l ≠ [] := by
  obtain ⟨a, ha⟩ := List.exists_mem_of_ne_nil l h
  exact List.ne_nil_of_mem (mem_canonSortNat.mpr ha)

/-! ### getLast helpers -/

theorem getLast?_mem' {α : Type} : ∀ {l : List α} {x : α}, l.getLast? = some x → x ∈ l
  | [], _, h => by simp at h
  | [a], x, h => by
    simp only [List.getLast?_singleton, Option.some.injEq] at h
    simp [h]
  | a :: b :: t, x, h => by
    rw [List.getLast?_cons_cons] at h
    exact List.mem_cons_of_mem a (getLast?_mem' h)

theorem pairwise_rel_getLast {α : Type} {r : α → α → Prop} :
    ∀ (l : List α), l.Pairwise r → ∀ (x : α), l.getLast? = some x →
      ∀ (a : α), a ∈ l → a = x ∨ r a x
  | [], _, _, h, _, _ => by simp at h
  | [b], _, x, h, a, ha => by
    simp only [List.getLast?_singleton, Option.some.injEq] at h
    simp only [List.mem_singleton] at ha
    exact Or.inl (ha.trans h)
  | b :: c :: t, hp, x, h, a, ha => by
    rw [List.getLast?_cons_cons] at h
    rcases List.mem_cons.mp ha with rfl | ha2
    · exact Or.inr ((List.pairwise_cons.mp hp).1 x (getLast?_mem' h))
    · exact pairwise_rel_getLast (c :: t) (List.pairwise_cons.mp hp).2 x h a ha2

/-! ### formatAppsDate characterization -/

theorem sortAsc_eq_nil_iff {names : Nat → String} {l : List Appointment} :
    sortAsc names l = [] ↔ l = [] := by
  constructor
  · intro h
    have := (sortAsc_perm names l).length_eq
    rw [h] at this
    exact List.length_eq_zero.mp this.symm
  · intro h
    subst h
    rfl

theorem formatAppsDate_eq_times {names : Nat → String} {l : List Appointment}
    (k : Nat) {t : Nat} {ts : List Nat} (ht : sortedTimes names l = t :: ts) :
    formatAppsDate names l k =
      if (t :: ts).length ≤ k then
        some ("• " ++ dateStr (t / 1440) ++ ": " ++ "<i>" ++
          joinComma ((t :: ts).map timeStr) ++ "</i>\n")
      else
        some ("• " ++ dateStr (t / 1440) ++ ": " ++ "<i>" ++
          joinComma (((t :: ts).take (k - 2)).map timeStr) ++ ", ... (+" ++
          Nat.repr ((t :: ts).drop (k - 2)).length ++ ")</i>\n") := by
  unfold formatAppsDate
  cases hs : sortAsc names l with
  | nil =>
    rw [sortedTimes, hs] at ht
    simp at ht
  | cons a rest =>
    rw [sortedTimes, hs, List.map_cons] at ht
    obtain ⟨rfl, rfl⟩ := List.cons.injEq .. |>.mp ht |>.imp id id
    simp only [List.length_cons, List.length_map, aDate]
    by_cases hlen : rest.length + 1 ≤ k
    · simp [hlen, List.map_map, Function.comp_def]
    · simp [hlen, List.map_map, List.map_take, List.length_drop,
        Function.comp_def]

theorem formatAppsDate_eq_none {names : Nat → String} {l : List Appointment}
    (h : l = []) (k : Nat) : formatAppsDate names l k = none := by
  subst h
  rfl

theorem sortedTimes_ne_nil (names : Nat → String) {l : List Appointment}
    (h : l ≠ []) : sortedTimes names l ≠ [] := by
  intro he
  apply h
  have hlen := congrArg List.length he
  simp only [sortedTimes, List.length_map, List.length_nil] at hlen
  rw [(sortAsc_perm names l).length_eq] at hlen
  exact List.length_eq_zero.mp hlen

theorem formatAppsDate_eq_of_perm (names : Nat → String)
    {l₁ l₂ : List Appointment} (h : l₁.Perm l₂) (k : Nat) :
    formatAppsDate names l₁ k = formatAppsDate names l₂ k := by
  cases ht : sortedTimes names l₁ with
  | nil =>
    have h1 : l₁ = [] := by
      by_contra hne
      exact sortedTimes_ne_nil names hne ht
    have h2 : l₂ = [] := by
      rw [h1] at h
      exact h.symm.eq_nil
    rw [formatAppsDate_eq_none h1, formatAppsDate_eq_none h2]
  | cons t ts =>
    have ht2 : sortedTimes names l₂ = t :: ts := by
      rw [← sortedTimes_eq_of_perm names h, ht]
    rw [formatAppsDate_eq_times k ht, formatAppsDate_eq_times k ht2]

theorem formatAppsDate_some (names : Nat → String) {l : List Appointment}
    (h : l ≠ []) (k : Nat) :
    ∃ s, formatAppsDate names l k = some s ∧ s ≠ "" := by
  cases ht : sortedTimes names l with
  | nil => exact (sortedTimes_ne_nil names h ht).elim
  | cons t ts =>
    rw [formatAppsDate_eq_times k ht]
    by_cases hlen : (t :: ts).length ≤ k
    · exact ⟨"• " ++ dateStr (t / 1440) ++ ": " ++ "<i>" ++
        joinComma ((t :: ts).map timeStr) ++ "</i>\n",
        by rw [if_pos hlen], str_append_ne_empty_right _ (by decide)⟩
    · exact ⟨"• " ++ dateStr (t / 1440) ++ ": " ++ "<i>" ++
        joinComma (((t :: ts).take (k - 2)).map timeStr) ++ ", ... (+" ++
        Nat.repr ((t :: ts).drop (k - 2)).length ++ ")</i>\n",
        by rw [if_neg hlen], str_append_ne_empty_right _ (by decide)⟩

/-! ### formatApps: totality on non-empty groups and determinism -/

theorem formatAppsLoop_some (names : Nat → String) (appsLoc : List Appointment) :
    ∀ (ds : List Nat), (∀ d ∈ ds, appsLoc.filter (fun a => aDate a == d) ≠ []) →
      ∀ acc, ∃ u, formatAppsLoop names appsLoc ds acc = some (acc ++ u)
  | [], _, acc => ⟨"", by rw [String.append_empty]; rfl⟩
  | d :: ds, hne, acc => by
    obtain ⟨s, hs, _⟩ :=
      formatAppsDate_some names (hne d (List.mem_cons_self d ds)) 5
    obtain ⟨u, hu⟩ := formatAppsLoop_some names appsLoc ds
      (fun x hx => hne x (List.mem_cons_of_mem d hx)) (acc ++ s)
    refine ⟨s ++ u, ?_⟩
    simp only [formatAppsLoop]
    rw [hs]
    show formatAppsLoop names appsLoc ds (acc ++ s) = some (acc ++ (s ++ u))
    rw [hu, String.append_assoc]

theorem formatAppsLoop_congr (names : Nat → String)
    {l₁ l₂ : List Appointment}
    (hd : ∀ d, formatAppsDate names (l₁.filter (fun a => aDate a == d)) 5 =
      formatAppsDate names (l₂.filter (fun a => aDate a == d)) 5) :
    ∀ (ds : List Nat) (acc : String),
      formatAppsLoop names l₁ ds acc = formatAppsLoop names l₂ ds acc
  | [], _ => rfl
  | d :: ds, acc => by
    simp only [formatAppsLoop]
    rw [hd d]
    cases formatAppsDate names (l₂.filter (fun a => aDate a == d)) 5 with
    | none => rfl
    | some s => exact formatAppsLoop_congr names hd ds (acc ++ s)

theorem formatApps_some (names : Nat → String) {l : List Appointment}
    (h : l ≠ []) : ∃ s, formatApps names l 5 = some s ∧ s ≠ "" := by
  cases l with
  | nil => exact absurd rfl h
  | cons a0 rest =>
    have hgrp : ∀ d ∈ (canonSortNat ((a0 :: rest).map aDate)).take 5,
        (a0 :: rest).filter (fun a => aDate a == d) ≠ [] := by
      intro d hd
      have hd2 : d ∈ (a0 :: rest).map aDate :=
        mem_canonSortNat.mp (List.mem_of_mem_take hd)
      obtain ⟨a, ha, rfl⟩ := List.mem_map.mp hd2
      exact List.ne_nil_of_mem (List.mem_filter.mpr ⟨ha, by simp⟩)
    obtain ⟨u, hu⟩ := formatAppsLoop_some names (a0 :: rest) _ hgrp
      ("🏢 <b>" ++ names a0.locationId ++ ":</b>\n")
    have hhdr : ("🏢 <b>" ++ names a0.locationId ++ ":</b>\n") ++ u ≠ "" :=
      str_append_ne_empty_left _ (str_append_ne_empty_right _ (by decide))
    simp only [formatApps]
    simp only [hu]
    by_cases hrest : ((canonSortNat ((a0 :: rest).map aDate)).drop 5).isEmpty
    · rw [if_pos hrest]
      exact ⟨_, rfl, hhdr⟩
    · rw [if_neg hrest]
      by_cases hone :
          ((a0 :: rest).filter
            (fun a => ((canonSortNat ((a0 :: rest).map aDate)).drop 5).contains (aDate a))).length == 1
      · rw [if_pos hone]
        exact ⟨_, rfl, str_append_ne_empty_right _ (by decide)⟩
      · rw [if_neg hone]
        exact ⟨_, rfl, str_append_ne_empty_right _ (by decide)⟩

theorem formatApps_eq_of_perm (names : Nat → String) {L : Nat}
    {l₁ l₂ : List Appointment} (hL : ∀ a ∈ l₁, a.locationId = L)
    (h : l₁.Perm l₂) : formatApps names l₁ 5 = formatApps names l₂ 5 := by
  cases l₁ with
  | nil =>
    have h2 : l₂ = [] := h.symm.eq_nil
    rw [h2]
  | cons a0 r1 =>
    cases l₂ with
    | nil => exact absurd h.eq_nil (by simp)
    | cons b0 r2 =>
      have ha0 : a0.locationId = L := hL a0 (List.mem_cons_self a0 r1)
      have hb0 : b0.locationId = L :=
        hL b0 (h.mem_iff.mpr (List.mem_cons_self b0 r2))
      have hdates : canonSortNat ((a0 :: r1).map aDate) =
          canonSortNat ((b0 :: r2).map aDate) :=
        canonSortNat_eq_of_perm (h.map _)
      have hloop : ∀ (ds : List Nat) (acc : String),
          formatAppsLoop names (a0 :: r1) ds acc =
            formatAppsLoop names (b0 :: r2) ds acc :=
        formatAppsLoop_congr names
          (fun d => formatAppsDate_eq_of_perm names (h.filter _) 5)
      have hrestlen : ∀ (p : Appointment → Bool),
          ((a0 :: r1).filter p).length = ((b0 :: r2).filter p).length :=
        fun p => (h.filter p).length_eq
      simp only [formatApps]
      rw [ha0, hb0, hdates, hloop, hrestlen]

/-! ### Grouped rendering: totality and determinism -/

theorem renderGroupsLoop_some (names : Nat → String) (apps : List Appointment) :
    ∀ (ids : List Nat), (∀ i ∈ ids, apps.filter (fun a => a.locationId == i) ≠ []) →
      ∀ acc, ∃ u, renderGroupsLoop names apps ids acc = some (acc ++ u) ∧
        (ids ≠ [] → u ≠ "")
  | [], _, acc =>
    ⟨"", by rw [String.append_empty]; rfl, fun h => absurd rfl h⟩
  | i :: ids, hne, acc => by
    obtain ⟨s, hs, hsne⟩ := formatApps_some names (hne i (List.mem_cons_self i ids))
    obtain ⟨u, hu, _⟩ := renderGroupsLoop_some names apps ids
      (fun x hx => hne x (List.mem_cons_of_mem i hx)) (acc ++ s)
    refine ⟨s ++ u, ?_, fun _ => str_append_ne_empty_left _ hsne⟩
    simp only [renderGroupsLoop]
    rw [hs]
    show renderGroupsLoop names apps ids (acc ++ s) = some (acc ++ (s ++ u))
    rw [hu, String.append_assoc]

theorem renderGroupsLoop_congr (names : Nat → String)
    {l₁ l₂ : List Appointment}
    (hg : ∀ i, formatApps names (l₁.filter (fun a => a.locationId == i)) 5 =
      formatApps names (l₂.filter (fun a => a.locationId == i)) 5) :
    ∀ (ids : List Nat) (acc : String),
      renderGroupsLoop names l₁ ids acc = renderGroupsLoop names l₂ ids acc
  | [], _ => rfl
  | i :: ids, acc => by
    simp only [renderGroupsLoop]
    rw [hg i]
    cases formatApps names (l₂.filter (fun a => a.locationId == i)) 5 with
    | none => rfl
    | some s => exact renderGroupsLoop_congr names hg ids (acc ++ s)

theorem locGroups_ne_nil (apps : List Appointment) :
    ∀ i ∈ canonSortNat (apps.map (fun a => a.locationId)),
      apps.filter (fun a => a.locationId == i) ≠ [] := by
  intro i hi
  obtain ⟨a, ha, rfl⟩ := List.mem_map.mp (mem_canonSortNat.mp hi)
  exact List.ne_nil_of_mem (List.mem_filter.mpr ⟨ha, by simp⟩)

theorem locIds_ne_nil {apps : List Appointment} (h : apps ≠ []) :
    canonSortNat (apps.map (fun a => a.locationId)) ≠ [] :=
  canonSortNat_ne_nil (by simpa using h)

theorem renderLocGroups_some (names : Nat → String) (apps : List Appointment) :
    ∃ s, renderLocGroups names apps = some s ∧ (apps ≠ [] → s ≠ "") := by
  obtain ⟨u, hu, hne⟩ := renderGroupsLoop_some names apps _ (locGroups_ne_nil apps) ""
  rw [String.empty_append] at hu
  exact ⟨u, hu, fun hA => hne (locIds_ne_nil hA)⟩

theorem filter_locationId_eq {i : Nat} {l : List Appointment} :
    ∀ a ∈ l.filter (fun a => a.locationId == i), a.locationId = i := by
  intro a ha
  exact beq_iff_eq.mp (List.mem_filter.mp ha).2

theorem renderLocGroups_eq_of_perm (names : Nat → String)
    {l₁ l₂ : List Appointment} (h : l₁.Perm l₂) :
    renderLocGroups names l₁ = renderLocGroups names l₂ := by
  unfold renderLocGroups
  rw [canonSortNat_eq_of_perm (h.map _)]
  exact renderGroupsLoop_congr names
    (fun i => formatApps_eq_of_perm names (filter_locationId_eq) (h.filter _)) _ _

/-! ### Diff rendering loop -/

theorem str_len_pos {s : String} (h : s ≠ "") : 0 < s.length := by
  cases s with
  | mk data =>
    cases data with
    | nil => exact absurd rfl h
    | cons c cs => simp [String.length]

theorem diffStep_some (names : Nat → String) (g : List Appointment)
    (acc : String) :
    ∃ accNext,
      (if g.isEmpty then some acc
        else (formatApps names g 5).map (fun s => acc ++ s)) = some accNext ∧
      acc.length ≤ accNext.length ∧ (g ≠ [] → acc.length < accNext.length) := by
  by_cases hg : g.isEmpty
  · exact ⟨acc, by rw [if_pos hg], le_refl _,
      fun hne => absurd (List.isEmpty_iff.mp hg) hne⟩
  · obtain ⟨s, hs, hsne⟩ := formatApps_some names
      (fun (he : g = []) => hg (by rw [he]; rfl))
    refine ⟨acc ++ s, by rw [if_neg hg, hs]; rfl, ?_, fun _ => ?_⟩
    · rw [String.length_append]
      exact Nat.le_add_right _ _
    · rw [String.length_append]
      exact Nat.lt_add_of_pos_right (str_len_pos hsne)

theorem diffGroupsLoop_some (names : Nat → String) (deadline : Nat)
    (appNew appGone : List Appointment) :
    ∀ (ids : List Nat) (accN accG : String),
      ∃ rN rG, diffGroupsLoop names deadline appNew appGone ids accN accG =
          some (rN, rG) ∧
        accN.length ≤ rN.length ∧ accG.length ≤ rG.length ∧
        ((∃ i, i ∈ ids ∧
            appNew.filter (fun a => a.locationId == i && decide (aDate a < deadline)) ≠ []) →
          accN.length < rN.length) ∧
        ((∃ i, i ∈ ids ∧
            appGone.filter (fun a => a.locationId == i && decide (aDate a < deadline)) ≠ []) →
          accG.length < rG.length)
  | [], accN, accG => by
    refine ⟨accN, accG, rfl, le_refl _, le_refl _, ?_, ?_⟩ <;>
      rintro ⟨i, hi, _⟩ <;> simp at hi
  | i :: ids, accN, accG => by
    obtain ⟨accN2, hN, hNle, hNs⟩ := diffStep_some names
      (appNew.filter (fun a => a.locationId == i && decide (aDate a < deadline))) accN
    obtain ⟨accG2, hG, hGle, hGs⟩ := diffStep_some names
      (appGone.filter (fun a => a.locationId == i && decide (aDate a < deadline))) accG
    obtain ⟨rN, rG, hloop, h1, h2, h3, h4⟩ :=
      diffGroupsLoop_some names deadline appNew appGone ids accN2 accG2
    refine ⟨rN, rG, ?_, le_trans hNle h1, le_trans hGle h2, ?_, ?_⟩
    · simp only [diffGroupsLoop]
      simp only [hN, hG]
      exact hloop
    · rintro ⟨j, hj, hje⟩
      rcases List.mem_cons.mp hj with rfl | hj2
      · exact Nat.lt_of_lt_of_le (hNs hje) h1
      · exact Nat.lt_of_le_of_lt hNle (h3 ⟨j, hj2, hje⟩)
    · rintro ⟨j, hj, hje⟩
      rcases List.mem_cons.mp hj with rfl | hj2
      · exact Nat.lt_of_lt_of_le (hGs hje) h2
      · exact Nat.lt_of_le_of_lt hGle (h4 ⟨j, hj2, hje⟩)

/-! ### Diff characterization -/

theorem canonSortNat_nil : canonSortNat [] = [] := rfl

theorem mem_diffApps_fst {A B : List Appointment} {a : Appointment} :
    a ∈ (diffApps A B).1 ↔ a ∈ B ∧ a ∉ A := by
  simp [diffApps, List.mem_filter]

theorem mem_diffApps_snd {A B : List Appointment} {a : Appointment} :
    a ∈ (diffApps A B).2 ↔ a ∈ A ∧ a ∉ B := by
  simp [diffApps, List.mem_filter]

theorem diffApps_self (A : List Appointment) : diffApps A A = ([], []) := by
  simp only [diffApps, Prod.mk.injEq]
  constructor <;>
    · rw [List.filter_eq_nil_iff]
      intro a ha
      simp [ha]

theorem diffApps_nil_of_mutual {A B : List Appointment}
    (h₁ : ∀ a ∈ A, a ∈ B) (h₂ : ∀ a ∈ B, a ∈ A) : diffApps A B = ([], []) := by
  simp only [diffApps, Prod.mk.injEq]
  constructor <;> rw [List.filter_eq_nil_iff]
  · intro a ha
    simp [h₂ a ha]
  · intro a ha
    simp [h₁ a ha]

theorem notificationAppsDiffAux_eq_empty {names : Nat → String} {deadline : Nat}
    {A B : List Appointment} (h : diffApps A B = ([], [])) :
    notificationAppsDiffAux names deadline A B = some "" := by
  simp [notificationAppsDiffAux, h, canonSortNat_nil]

theorem botNotificationAppsDiffAux_eq_empty {names : Nat → String}
    {deadline : Nat} {A B : List Appointment} (h : diffApps A B = ([], [])) :
    botNotificationAppsDiffAux names deadline A B = some "" := by
  simp [botNotificationAppsDiffAux, h, canonSortNat_nil]

theorem filter_mutual_of_mutual {old cur : List Appointment}
    (h₁ : ∀ a ∈ old, a ∈ cur) (h₂ : ∀ a ∈ cur, a ∈ old)
    (p : Appointment → Bool) :
    (∀ a ∈ old.filter p, a ∈ cur.filter p) ∧
      (∀ a ∈ cur.filter p, a ∈ old.filter p) := by
  constructor <;> intro a ha <;> rw [List.mem_filter] at ha ⊢
  · exact ⟨h₁ a ha.1, ha.2⟩
  · exact ⟨h₂ a ha.1, ha.2⟩

theorem botNotificationAppsDiff_eq_empty {names : Nat → String} {deadline : Nat}
    {old cur : List Appointment} (h₁ : ∀ a ∈ old, a ∈ cur)
    (h₂ : ∀ a ∈ cur, a ∈ old) :
    botNotificationAppsDiff names deadline old cur = some "" := by
  obtain ⟨g₁, g₂⟩ := filter_mutual_of_mutual h₁ h₂
    (fun a => decide (aDate a < deadline))
  exact botNotificationAppsDiffAux_eq_empty (diffApps_nil_of_mutual g₁ g₂)

theorem runCycleLoop_all_empty {names : Nat → String}
    {appsOld appsCur : List Appointment}
    (h : ∀ d, botNotificationAppsDiff names d appsOld appsCur = some "") :
    ∀ (us : List User) (acc : List (Nat × String)),
      runCycleLoop names appsOld appsCur us acc = some acc
  | [], _ => rfl
  | u :: us, acc => by
    simp only [runCycleLoop]
    simp only [h u.deadline]
    rw [if_pos (by decide)]
    exact runCycleLoop_all_empty h us acc

/-! ### Filtering is idempotent (deadline scoping) -/

theorem filter_self_filter (p : Appointment → Bool) (l : List Appointment) :
    (l.filter p).filter p = l.filter p := by
  rw [List.filter_filter]
  apply List.filter_congr
  intro a _
  exact Bool.and_self (p a)

/-! ### Early-cutoff walk -/

theorem earlyWalk_no_gap :
    ∀ (pairs : List (Appointment × Appointment)) (d : Nat),
      (∀ p ∈ pairs, dayGap p.1 p.2 ≤ 6) → earlyWalk pairs d = d
  | [], _, _ => rfl
  | (l, e) :: rest, d, h => by
    simp only [earlyWalk]
    rw [if_neg (not_lt.mpr (h (l, e) (List.mem_cons_self _ _)))]
    exact earlyWalk_no_gap rest d (fun p hp => h p (List.mem_cons_of_mem _ hp))

theorem earlyWalk_first_gap :
    ∀ (pre : List (Appointment × Appointment)) (l e : Appointment)
      (post : List (Appointment × Appointment)) (d : Nat),
      (∀ p ∈ pre, dayGap p.1 p.2 ≤ 6) → 6 < dayGap l e →
      earlyWalk (pre ++ (l, e) :: post) d = aDate l
  | [], l, e, post, d, _, hg => by
    simp only [List.nil_append, earlyWalk]
    rw [if_pos hg]
  | (l2, e2) :: pre, l, e, post, d, hpre, hg => by
    simp only [List.cons_append, earlyWalk]
    rw [if_neg (not_lt.mpr (hpre (l2, e2) (List.mem_cons_self _ _)))]
    exact earlyWalk_first_gap pre l e post d
      (fun p hp => hpre p (List.mem_cons_of_mem _ hp)) hg

theorem sortDesc_ne_nil {names : Nat → String} {apps : List Appointment}
    (h : apps ≠ []) : sortDesc names apps ≠ [] := by
  intro he
  apply h
  have hlen := (sortDesc_perm names apps).length_eq
  rw [he] at hlen
  exact List.length_eq_zero.mp hlen.symm

theorem getDateConsideredEarly_eq_walk (names : Nat → String)
    {apps : List Appointment} (h : apps ≠ []) :
    ∃ last, (sortDesc names apps).getLast? = some last ∧
      getDateConsideredEarly names apps =
        some (earlyWalk ((sortDesc names apps).zip (sortDesc names apps).tail)
          (aDate last)) := by
  obtain ⟨last, hlast⟩ : ∃ x, (sortDesc names apps).getLast? = some x := by
    cases hl : (sortDesc names apps).getLast? with
    | none => exact absurd (List.getLast?_eq_none_iff.mp hl) (sortDesc_ne_nil h)
    | some x => exact ⟨x, rfl⟩
  refine ⟨last, hlast, ?_⟩
  simp only [getDateConsideredEarly, hlast]

theorem getLast_min_date (names : Nat → String) {apps : List Appointment}
    {last : Appointment}
    (hlast : (sortDesc names apps).getLast? = some last) :
    ∀ a ∈ apps, aDate last ≤ aDate a := by
  intro a ha
  have ha2 : a ∈ sortDesc names apps := (sortDesc_perm names apps).mem_iff.mpr ha
  rcases pairwise_rel_getLast _ (sortDesc_sorted names apps) last hlast a ha2 with
    rfl | hrel
  · exact le_refl _
  · exact Nat.div_le_div_right (appGT_false_dateTime_le hrel)

/-! ### Claim theorems -/

/-- C3: for all appointment lists A and B, `diff(A,B).added` consists
exactly of the elements of B absent from A under value equality,
`diff(A,B).removed` of the elements of A absent from B; the diff is
symmetric (`added`/`removed` swap when the arguments swap) and
`diff(A,A) = ([], [])`. -/
theorem c3_diff_characterization (A B : List Appointment) :
    (∀ a, a ∈ (diffApps A B).1 ↔ a ∈ B ∧ a ∉ A) ∧
    (∀ a, a ∈ (diffApps A B).2 ↔ a ∈ A ∧ a ∉ B) ∧
    (diffApps A B).1 = (diffApps B A).2 ∧
    (diffApps A B).2 = (diffApps B A).1 ∧
    diffApps A A = ([], []) :=
  ⟨fun _ => mem_diffApps_fst, fun _ => mem_diffApps_snd, rfl, rfl,
    diffApps_self A⟩

/-- C4: a refresh cycle whose stored and downloaded snapshots are equal
as sets produces an empty mapping: no subscriber receives a message. -/
theorem c4_cycle_skip (names : Nat → String)
    (appsOld appsCur : List Appointment) (users : List User)
    (h₁ : ∀ a ∈ appsOld, a ∈ appsCur) (h₂ : ∀ a ∈ appsCur, a ∈ appsOld) :
    runCycle names appsOld appsCur users = some [] := by
  unfold runCycle
  by_cases hu : users.isEmpty
  · rw [if_pos hu]
  · rw [if_neg hu]
    by_cases he : appsCur == appsOld
    · rw [if_pos he]
    · rw [if_neg he]
      exact runCycleLoop_all_empty
        (fun d => botNotificationAppsDiff_eq_empty h₁ h₂) users []

/-- C4 witness: two set-equal snapshots listed in different orders with
one subscriber yield an empty mapping. -/
theorem c4_cycle_skip_witness :
    runCycle namesW wPairOld wPairCur [uW] = some [] :=
  c4_cycle_skip namesW wPairOld wPairCur [uW] (by decide) (by decide)

/-- C5: the diff-mode composer is invariant under pre-filtering both of
its snapshot inputs to dates strictly before the deadline, so an
appointment dated on or after the deadline can never influence (or
appear in) the rendered text. -/
theorem c5_deadline_scope (names : Nat → String) (deadline : Nat)
    (stored appsCur : List Appointment) :
    notificationAppsDiff names deadline stored appsCur =
      notificationAppsDiff names deadline
        (stored.filter (fun a => decide (aDate a < deadline)))
        (appsCur.filter (fun a => decide (aDate a < deadline))) := by
  unfold notificationAppsDiff appointmentsEarlierThan
  rw [filter_self_filter, filter_self_filter]

/-- C8: setting a deadline strictly before today is rejected with the
`ValueError` and leaves the stored user unchanged; setting a deadline on
or after today succeeds and updates the stored deadline. -/
theorem c8_deadline_validation (today : Nat) (u : User) (d : Nat) :
    (d < today →
      setDeadline today u d =
        Except.error "The deadline must not be in the past" ∧
      setDeadlineState today u d = u) ∧
    (today ≤ d →
      setDeadline today u d = Except.ok { u with deadline := d } ∧
      (setDeadlineState today u d).deadline = d ∧
      (setDeadlineState today u d).chatId = u.chatId) := by
  constructor
  · intro h
    constructor
    · unfold setDeadline
      rw [if_pos h]
    · simp [setDeadlineState, setDeadline, h]
  · intro h
    have hn : ¬d < today := not_lt.mpr h
    refine ⟨?_, ?_, ?_⟩ <;> simp [setDeadlineState, setDeadline, hn]

/-- C8 witness: rejection at a concrete past deadline keeps the user
unchanged; acceptance at today and at a future day stores the new
deadline. -/
theorem c8_deadline_validation_witness :
    setDeadlineState 19800 uW 19750 = uW ∧
    (setDeadlineState 19800 uW 19800).deadline = 19800 ∧
    (setDeadlineState 19800 uW 19900).deadline = 19900 :=
  ⟨((c8_deadline_validation 19800 uW 19750).1 (by decide)).2,
    ((c8_deadline_validation 19800 uW 19800).2 (by decide)).2.1,
    ((c8_deadline_validation 19800 uW 19900).2 (by decide)).2.1⟩

/-- C9: the early-threshold classifier fails (the `IndexError` on
`apps_sorted_rev[-1]`, modelled as `none`) exactly on the empty
snapshot, and succeeds with a date on every non-empty snapshot. -/
theorem c9_empty_input (names : Nat → String) :
    getDateConsideredEarly names [] = none ∧
    ∀ (apps : List Appointment), apps ≠ [] →
      ∃ d, getDateConsideredEarly names apps = some d := by
  refine ⟨rfl, fun apps h => ?_⟩
  obtain ⟨last, _, heq⟩ := getDateConsideredEarly_eq_walk names h
  exact ⟨_, heq⟩

/-- C9 witness: the classifier succeeds on a concrete non-empty
snapshot. -/
theorem c9_empty_input_witness : getDateConsideredEarly namesW w6 ≠ none := by
  obtain ⟨d, hd⟩ := (c9_empty_input namesW).2 w6 (by decide)
  rw [hd]
  simp

/-- C10: the grouped per-location rendering never fails (an empty
per-location group never arises because the visited location ids are
exactly those occurring in the input, so a location without appointments
is omitted), and the rendering is the same for any two orderings of the
same input multiset. -/
theorem c10_grouped_rendering (names : Nat → String)
    (l₁ l₂ : List Appointment) (h : l₁.Perm l₂) :
    (∃ s, renderLocGroups names l₁ = some s) ∧
    renderLocGroups names l₁ = renderLocGroups names l₂ := by
  obtain ⟨s, hs, _⟩ := renderLocGroups_some names l₁
  exact ⟨⟨s, hs⟩, renderLocGroups_eq_of_perm names h⟩

/-- C10 witness: two orderings of a concrete two-location snapshot
render identically and without failure. -/
theorem c10_grouped_rendering_witness :
    renderLocGroups namesW wPairOld = renderLocGroups namesW wPairCur ∧
    renderLocGroups namesW wPairOld ≠ none := by
  obtain ⟨⟨s, hs⟩, heq⟩ :=
    c10_grouped_rendering namesW wPairOld wPairCur (by decide)
  refine ⟨heq, ?_⟩
  rw [hs]
  simp

/-- C1 counterexample: a location/date group with exactly 6 distinct
times renders the first 3 sorted times followed by "... (+3)", not the
first 4 times followed by "(+2)" as the claim states. -/
theorem c1_truncation_counterexample :
    formatAppsDate namesW w6 5 =
      some "• 01.01.2024: <i>09:00, 09:05, 09:10, ... (+3)</i>\n" ∧
    ¬ formatAppsDate namesW w6 5 =
      some "• 01.01.2024: <i>09:00, 09:05, 09:10, 09:15, ... (+2)</i>\n" ∧
    w6.length = 6 ∧ (w6.map (fun a => a.dateTime)).Nodup ∧
    w6.map aDate = List.replicate 6 19723 ∧
    w6.map (fun a => a.locationId) = List.replicate 6 1 := by
  decide

/-- C1 (amended): for a group of appointments sharing one date and
location, the renderer prints all times comma-separated when there are
at most 5 times; with more than 5 times it renders the first
`split_at − 2 = 3` sorted times followed by an ellipsis and a
"(+N)" remainder count, where N is the total minus 3 (so 6 times render
the first 3 plus "(+3)"). -/
theorem c1_truncation (names : Nat → String) (l : List Appointment)
    (h : l ≠ []) :
    ∃ t ts, sortedTimes names l = t :: ts ∧
      (l.length ≤ 5 → formatAppsDate names l 5 =
        some ("• " ++ dateStr (t / 1440) ++ ": " ++ "<i>" ++
          joinComma ((t :: ts).map timeStr) ++ "</i>\n")) ∧
      (5 < l.length → formatAppsDate names l 5 =
        some ("• " ++ dateStr (t / 1440) ++ ": " ++ "<i>" ++
          joinComma (((t :: ts).take 3).map timeStr) ++ ", ... (+" ++
          Nat.repr (l.length - 3) ++ ")</i>\n")) := by
  cases ht : sortedTimes names l with
  | nil => exact (sortedTimes_ne_nil names h ht).elim
  | cons t ts =>
    have hlen : (t :: ts).length = l.length := by
      have hc := congrArg List.length ht
      rw [sortedTimes, List.length_map, (sortAsc_perm names l).length_eq] at hc
      exact hc.symm
    refine ⟨t, ts, rfl, ?_, ?_⟩
    · intro h5
      rw [formatAppsDate_eq_times 5 ht, if_pos (by rw [hlen]; exact h5)]
    · intro h5
      rw [formatAppsDate_eq_times 5 ht,
        if_neg (by rw [hlen]; exact not_le.mpr h5)]
      have h52 : (5 : Nat) - 2 = 3 := by norm_num
      rw [h52, List.length_drop, hlen]

/-- C1 witness: the amended truncation theorem evaluated on the concrete
six-time group reproduces the "first 3 plus (+3)" rendering. -/
theorem c1_truncation_witness :
    formatAppsDate namesW w6 5 =
      some "• 01.01.2024: <i>09:00, 09:05, 09:10, ... (+3)</i>\n" := by
  obtain ⟨t, ts, hts, _, h6⟩ := c1_truncation namesW w6 (by decide)
  have hts2 : sortedTimes namesW w6 =
      (19723 * 1440 + 540) :: [19723 * 1440 + 545, 19723 * 1440 + 550,
        19723 * 1440 + 555, 19723 * 1440 + 560, 19723 * 1440 + 565] := by
    decide
  rw [hts2] at hts
  obtain ⟨rfl, rfl⟩ := List.cons.injEq .. |>.mp hts.symm |>.imp id id
  exact (h6 (by decide)).trans (congrArg some (by decide))

/-- C2 counterexample: the snapshot `cxApps` has two distinct dates
(day 100 and day 107) that are 7 calendar days apart, more than 6, so
the claim predicts cutoff day 107; but the code compares the datetimes
(6 days 22 hours, whose `timedelta.days` is 6) and returns the earliest
date, day 100. -/
theorem c2_scarce_cutoff_counterexample :
    aDate cxLater - aDate cxEarlier = 7 ∧
    6 < aDate cxLater - aDate cxEarlier ∧
    cxApps.map aDate = [107, 100] ∧
    getDateConsideredEarly namesW cxApps = some 100 ∧
    ¬ getDateConsideredEarly namesW cxApps = some 107 := by
  decide

/-- C2 (amended): for a non-empty snapshot the classifier sorts the
appointments (not their distinct dates) by datetime in descending order,
starts the cutoff at the date of the earliest appointment — which is the
earliest date in the snapshot — and at the first consecutive pair whose
datetime difference amounts to strictly more than 6 whole days
(`timedelta.days`, i.e. the floor of the difference in days) it returns
the later appointment's date and stops; if no such pair exists it
returns the earliest date. -/
theorem c2_scarce_cutoff (names : Nat → String) (apps : List Appointment)
    (h : apps ≠ []) :
    ∃ last, (sortDesc names apps).getLast? = some last ∧
      (∀ a ∈ apps, aDate last ≤ aDate a) ∧
      ((∀ p ∈ (sortDesc names apps).zip (sortDesc names apps).tail,
          dayGap p.1 p.2 ≤ 6) →
        getDateConsideredEarly names apps = some (aDate last)) ∧
      (∀ (pre : List (Appointment × Appointment)) (l e : Appointment)
          (post : List (Appointment × Appointment)),
        (sortDesc names apps).zip (sortDesc names apps).tail =
          pre ++ (l, e) :: post →
        (∀ p ∈ pre, dayGap p.1 p.2 ≤ 6) → 6 < dayGap l e →
        getDateConsideredEarly names apps = some (aDate l)) := by
  obtain ⟨last, hlast, heq⟩ := getDateConsideredEarly_eq_walk names h
  refine ⟨last, hlast, getLast_min_date names hlast, ?_, ?_⟩
  · intro hno
    rw [heq, earlyWalk_no_gap _ _ hno]
  · intro pre l e post hdec hpre hg
    rw [heq, hdec, earlyWalk_first_gap pre l e post _ hpre hg]

/-- C2 witness: on the concrete gap-free-by-timedelta snapshot `cxApps`
the amended theorem yields the earliest date, day 100. -/
theorem c2_scarce_cutoff_witness :
    getDateConsideredEarly namesW cxApps = some (aDate cxEarlier) := by
  obtain ⟨last, hlast, _, hno, _⟩ := c2_scarce_cutoff namesW cxApps (by decide)
  have hl : last = cxEarlier :=
    Option.some.inj
      (hlast.symm.trans
        (by decide : (sortDesc namesW cxApps).getLast? = some cxEarlier))
  rw [hl] at hno
  exact hno (by decide)

/-- Forward direction core for C6: if either filtered diff component is
non-empty, the composed text is not the empty string. -/
theorem notificationAppsDiffAux_ne_some_empty {names : Nat → String}
    {deadline : Nat} {A B : List Appointment}
    (hAd : ∀ a ∈ A, aDate a < deadline) (hBd : ∀ a ∈ B, aDate a < deadline)
    (hne : (diffApps A B).1 ≠ [] ∨ (diffApps A B).2 ≠ []) :
    notificationAppsDiffAux names deadline A B ≠ some "" := by
  have hNsub : ∀ a ∈ (diffApps A B).1, aDate a < deadline :=
    fun a ha => hBd a (mem_diffApps_fst.mp ha).1
  have hGsub : ∀ a ∈ (diffApps A B).2, aDate a < deadline :=
    fun a ha => hAd a (mem_diffApps_snd.mp ha).1
  have hwit : ∃ a, a ∈ (diffApps A B).1 ++ (diffApps A B).2 ∧
      aDate a < deadline := by
    rcases hne with hN | hG
    · obtain ⟨a, ha⟩ := List.exists_mem_of_ne_nil _ hN
      exact ⟨a, List.mem_append_left _ ha, hNsub a ha⟩
    · obtain ⟨a, ha⟩ := List.exists_mem_of_ne_nil _ hG
      exact ⟨a, List.mem_append_right _ ha, hGsub a ha⟩
  obtain ⟨w, hwMem, hwlt⟩ := hwit
  have hwf : w ∈ ((diffApps A B).1 ++ (diffApps A B).2).filter
      (fun a => decide (aDate a < deadline)) :=
    List.mem_filter.mpr ⟨hwMem, by simp [hwlt]⟩
  have hid : w.locationId ∈ canonSortNat
      ((((diffApps A B).1 ++ (diffApps A B).2).filter
        (fun a => decide (aDate a < deadline))).map (fun a => a.locationId)) :=
    mem_canonSortNat.mpr (List.mem_map_of_mem _ hwf)
  have hidsne := List.ne_nil_of_mem hid
  intro hEq
  simp only [notificationAppsDiffAux] at hEq
  rw [if_neg (fun hI => hidsne (List.isEmpty_iff.mp hI))] at hEq
  obtain ⟨rN, rG, hloop, _, _, hNstrict, hGstrict⟩ :=
    diffGroupsLoop_some names deadline (diffApps A B).1 (diffApps A B).2
      (canonSortNat ((((diffApps A B).1 ++ (diffApps A B).2).filter
        (fun a => decide (aDate a < deadline))).map (fun a => a.locationId)))
      "" ""
  simp only [hloop, Option.some.injEq] at hEq
  rcases hne with hN | hG
  · obtain ⟨a, ha⟩ := List.exists_mem_of_ne_nil _ hN
    have hadlt := hNsub a ha
    have haf : a ∈ ((diffApps A B).1 ++ (diffApps A B).2).filter
        (fun x => decide (aDate x < deadline)) :=
      List.mem_filter.mpr ⟨List.mem_append_left _ ha, by simp [hadlt]⟩
    have haid : a.locationId ∈ canonSortNat
        ((((diffApps A B).1 ++ (diffApps A B).2).filter
          (fun x => decide (aDate x < deadline))).map (fun x => x.locationId)) :=
      mem_canonSortNat.mpr (List.mem_map_of_mem _ haf)
    have hgrp : (diffApps A B).1.filter
        (fun x => x.locationId == a.locationId && decide (aDate x < deadline)) ≠ [] :=
      List.ne_nil_of_mem (List.mem_filter.mpr ⟨ha, by simp [hadlt]⟩)
    have hrN : 0 < rN.length := hNstrict ⟨a.locationId, haid, hgrp⟩
    have hrNne : rN ≠ "" := by
      intro hr
      rw [hr] at hrN
      simp at hrN
    rw [if_neg (show ¬((rN == "") = true) by
      simp [beq_eq_false_iff_ne.mpr hrNne])] at hEq
    exact str_append_ne_empty_left _
      (str_append_ne_empty_left rN (by decide)) hEq
  · obtain ⟨a, ha⟩ := List.exists_mem_of_ne_nil _ hG
    have hadlt := hGsub a ha
    have haf : a ∈ ((diffApps A B).1 ++ (diffApps A B).2).filter
        (fun x => decide (aDate x < deadline)) :=
      List.mem_filter.mpr ⟨List.mem_append_right _ ha, by simp [hadlt]⟩
    have haid : a.locationId ∈ canonSortNat
        ((((diffApps A B).1 ++ (diffApps A B).2).filter
          (fun x => decide (aDate x < deadline))).map (fun x => x.locationId)) :=
      mem_canonSortNat.mpr (List.mem_map_of_mem _ haf)
    have hgrp : (diffApps A B).2.filter
        (fun x => x.locationId == a.locationId && decide (aDate x < deadline)) ≠ [] :=
      List.ne_nil_of_mem (List.mem_filter.mpr ⟨ha, by simp [hadlt]⟩)
    have hrG : 0 < rG.length := hGstrict ⟨a.locationId, haid, hgrp⟩
    have hrGne : rG ≠ "" := by
      intro hr
      rw [hr] at hrG
      simp at hrG
    rw [if_neg (show ¬((rG == "") = true) by
      simp [beq_eq_false_iff_ne.mpr hrGne])] at hEq
    exact str_append_ne_empty_right _
      (str_append_ne_empty_left rG (by decide)) hEq

/-- Entries collected by the notification loop always carry non-empty
text, given the accumulator already does. -/
theorem runCycleLoop_mem {names : Nat → String}
    {appsOld appsCur : List Appointment} :
    ∀ (us : List User) (acc res : List (Nat × String)),
      runCycleLoop names appsOld appsCur us acc = some res →
      (∀ q ∈ acc, q.2 ≠ "") → ∀ q ∈ res, q.2 ≠ ""
  | [], acc, res, h, hacc => by
    simp only [runCycleLoop, Option.some.injEq] at h
    subst h
    exact hacc
  | u :: us, acc, res, h, hacc => by
    simp only [runCycleLoop] at h
    cases hbot : botNotificationAppsDiff names u.deadline appsOld appsCur with
    | none =>
      rw [hbot] at h
      simp at h
    | some reply =>
      simp only [hbot] at h
      by_cases hr : (reply == "") = true
      · rw [if_pos hr] at h
        exact runCycleLoop_mem us acc res h hacc
      · rw [if_neg hr] at h
        refine runCycleLoop_mem us _ res h ?_
        intro q hq
        rcases List.mem_append.mp hq with hq1 | hq2
        · exact hacc q hq1
        · rw [List.mem_singleton] at hq2
          subst hq2
          intro he
          apply hr
          have he2 : reply = "" := he
          rw [he2]
          decide

/-- C6: the diff-mode composer returns the empty string exactly when,
after restricting both snapshots to dates strictly before the deadline,
both the added set and the removed set are empty; and the driver's
resulting mapping only ever contains entries with non-empty text, so
such a subscriber receives no message. -/
theorem c6_empty_iff (names : Nat → String) (deadline : Nat)
    (stored appsCur : List Appointment) :
    (notificationAppsDiff names deadline stored appsCur = some "" ↔
      (diffApps (appointmentsEarlierThan deadline stored)
        (appsCur.filter (fun a => decide (aDate a < deadline)))).1 = [] ∧
      (diffApps (appointmentsEarlierThan deadline stored)
        (appsCur.filter (fun a => decide (aDate a < deadline)))).2 = []) ∧
    (∀ (users : List User) (res : List (Nat × String)),
      runCycle names stored appsCur users = some res →
      ∀ q ∈ res, q.2 ≠ "") := by
  constructor
  · constructor
    · intro hres
      by_contra hboth
      rcases not_and_or.mp hboth with hN | hG
      · exact notificationAppsDiffAux_ne_some_empty
          (fun a ha => by
            simpa using (List.mem_filter.mp ha).2)
          (fun a ha => by
            simpa using (List.mem_filter.mp ha).2)
          (Or.inl hN) hres
      · exact notificationAppsDiffAux_ne_some_empty
          (fun a ha => by
            simpa using (List.mem_filter.mp ha).2)
          (fun a ha => by
            simpa using (List.mem_filter.mp ha).2)
          (Or.inr hG) hres
    · rintro ⟨hN, hG⟩
      exact notificationAppsDiffAux_eq_empty (Prod.ext hN hG)
  · intro users res h q hq
    unfold runCycle at h
    by_cases hu : users.isEmpty
    · rw [if_pos hu] at h
      simp only [Option.some.injEq] at h
      subst h
      simp at hq
    · rw [if_neg hu] at h
      by_cases he : (appsCur == stored) = true
      · rw [if_pos he] at h
        simp only [Option.some.injEq] at h
        subst h
        simp at hq
      · rw [if_neg he] at h
        exact runCycleLoop_mem users [] res h (by simp) q hq

/-- C6 witness: identical snapshots compose to the empty string, and a
concrete non-trivial cycle yields a mapping whose entry text is
non-empty. -/
theorem c6_empty_iff_witness :
    notificationAppsDiff namesW 19724 w6 w6 = some "" ∧ sW ≠ "" := by
  constructor
  · exact (c6_empty_iff namesW 19724 w6 w6).1.mpr (by constructor <;> decide)
  · exact (c6_empty_iff namesW 19724 w3 w6).2 [uW] [(42, sW)] (by decide)
      (42, sW) (by decide)

/-- C7 counterexample: with 3 stored appointments before the deadline
the composed text is the fixed header plus the listing; the count 3
appears nowhere in the text (the character '3' does not occur), so the
header does not state the count of matching appointments as the claim
says. -/
theorem c7_stored_counterexample :
    notificationStoredApps namesW 19724 w3 =
      some ("<b><u>Termine vor deiner Deadline:</u></b>\n" ++
        "🏢 <b>Aegi:</b>\n• 01.01.2024: <i>09:00, 09:05, 09:10</i>\n") ∧
    (appointmentsEarlierThan 19724 w3).length = 3 ∧
    '3' ∉ ("<b><u>Termine vor deiner Deadline:</u></b>\n" ++
        "🏢 <b>Aegi:</b>\n• 01.01.2024: <i>09:00, 09:05, 09:10</i>\n").data := by
  decide

/-- C7 (amended): when no stored appointment falls strictly before the
deadline, the composer returns the fixed non-empty sentinel "no
appointments before your deadline" message; otherwise it returns the
grouped rendering prefixed with the fixed header
"Termine vor deiner Deadline:", which does not state a count. -/
theorem c7_stored_notification (names : Nat → String) (deadline : Nat)
    (stored : List Appointment) :
    ("Momentan gibt es leider keine Termine vor deiner Deadline." ≠ "") ∧
    (appointmentsEarlierThan deadline stored = [] →
      notificationStoredApps names deadline stored =
        some "Momentan gibt es leider keine Termine vor deiner Deadline.") ∧
    (appointmentsEarlierThan deadline stored ≠ [] →
      ∃ body, notificationStoredApps names deadline stored =
        some ("<b><u>Termine vor deiner Deadline:</u></b>\n" ++ body) ∧
        body ≠ "") := by
  refine ⟨by decide, ?_, ?_⟩
  · intro h
    simp [notificationStoredApps, h]
  · intro h
    obtain ⟨u, hu, hune⟩ := renderGroupsLoop_some names
      (appointmentsEarlierThan deadline stored) _
      (locGroups_ne_nil (appointmentsEarlierThan deadline stored))
      "<b><u>Termine vor deiner Deadline:</u></b>\n"
    refine ⟨u, ?_, hune (locIds_ne_nil h)⟩
    simp only [notificationStoredApps]
    rw [if_neg (fun hI => h (List.isEmpty_iff.mp hI))]
    exact hu

/-- C7 witness: the sentinel branch on an empty store and the header
branch on a concrete non-empty store, via the amended theorem. -/
theorem c7_stored_notification_witness :
    notificationStoredApps namesW 19800 [] =
      some "Momentan gibt es leider keine Termine vor deiner Deadline." ∧
    notificationStoredApps namesW 19724 w3 ≠ some "" := by
  constructor
  · exact (c7_stored_notification namesW 19800 []).2.1 (by decide)
  · obtain ⟨body, hb, hbne⟩ :=
      (c7_stored_notification namesW 19724 w3).2.2 (by decide)
    rw [hb]
    intro he
    simp only [Option.some.injEq] at he
    exact str_append_ne_empty_left body (by decide) he
